import Mathlib

/-!
# brew-aware-upgrade: a verification development of `main.go`

A shallow embedding of the category selector (`parseFlags`), the outdated-set
prober (`getOutdatedPackages`), the config lookup (`findConfigFile`) and the
upgrade orchestrator (`upgradeCategory`, `executeUpgrade`), followed by the
theorems that settle the specification's claims.

Modelling conventions
* Go `string` values are modelled by `String` (text that is valid UTF-8).
* A Go `map[string]bool` into which only `true` is ever stored is modelled by
  the `Finset String` of its keys: `m[k]` is `k ∈ m`, `len(m)` is `m.card`.
* The operating system is an explicit state `σ` stepped by `Sys.combinedOutput`;
  everything a function prints or starts is recorded, in order, in a trace of
  `Event`s that the function returns next to its result.
-/

namespace BrewAwareUpgrade

/-! ## Library functions used by the program (`strings`, `unicode`) -/

/-- Go `unicode.IsSpace`: the Latin-1 spaces `\t \n \v \f \r`, space, NEL and NBSP,
and the other code points of the Unicode `White_Space` property. -/
def isSpace (c : Char) : Bool :=
  let n := c.toNat
  (0x09 ≤ n && n ≤ 0x0D) || n == 0x20 || n == 0x85 || n == 0xA0 || n == 0x1680 ||
  (0x2000 ≤ n && n ≤ 0x200A) || n == 0x2028 || n == 0x2029 || n == 0x202F ||
  n == 0x205F || n == 0x3000

/-- Characters of `strings.TrimSpace`: leading and trailing white space removed. -/
def trimSpaceChars (cs : List Char) : List Char :=
  ((cs.dropWhile isSpace).reverse.dropWhile isSpace).reverse

/-- Go `strings.TrimSpace`. -/
def trimSpace (s : String) : String :=
  String.mk (trimSpaceChars s.data)

/-- Characters of `strings.Split` with a one-character separator: the pieces between
consecutive occurrences of `sep`; a text without `sep` is its own single piece. -/
def splitChars (sep : Char) : List Char → List (List Char)
  | [] => [[]]
  | c :: cs =>
    if c = sep then [] :: splitChars sep cs
    else
      match splitChars sep cs with
      | [] => [[c]]
      | piece :: pieces => (c :: piece) :: pieces

/-- Go `strings.Split(s, sep)` for a separator of one character. -/
def split (s : String) (sep : Char) : List String :=
  (splitChars sep s.data).map String.mk

/-! ## Global names and the data model -/

def highestPriority : String := "highest_priority"

def priority : String := "priority"

def largeSize : String := "large_size"

def categoryNames : List String := [highestPriority, priority, largeSize]

/-- The package categories of the YAML file, each an ordered list of package names. -/
structure Categories where
  HighestPriority : List String
  Priority : List String
  LargeSize : List String
deriving DecidableEq, Repr

/-- The global variables `dryRun` and `verbose`, threaded explicitly. -/
structure Flags where
  dryRun : Bool
  verbose : Bool
deriving DecidableEq, Repr

/-- An external command line: the program and its arguments. -/
structure Cmd where
  name : String
  args : List String
deriving DecidableEq, Repr

/-- The operating system seen by the program: `exec.Command(c).CombinedOutput()` run in
state `s` gives the next state, the captured text and whether `err != nil`. -/
structure Sys (σ : Type) where
  combinedOutput : σ → Cmd → σ × String × Bool

/-- One observable step of the program, one constructor per statement with an effect. -/
inductive Event where
  /-- `runCommand` was entered with this command line (line 44). -/
  | call (c : Cmd)
  /-- Verbose line `Executing: cmd args` (line 45). -/
  | logExecuting (c : Cmd)
  /-- An external process was started and awaited (lines 51 and 61). -/
  | spawned (c : Cmd)
  /-- Error stream line `Error executing cmd args: err` (line 53). -/
  | errExecuting (c : Cmd)
  /-- Error stream line `Error executing brew outdated: err` (line 63). -/
  | errOutdated
  /-- Verbose line `Outdated packages: map` (line 75). -/
  | logOutdated (m : Finset String)
  /-- Standard output line `Upgrading name packages: list` (line 110). -/
  | printUpgrading (categoryName : String) (pkgs : List String)
  /-- Verbose line `No outdated packages found in category: name` (line 114). -/
  | logNoOutdated (categoryName : String)
  /-- Standard output line `Upgrading large_size package: pkg` (line 198). -/
  | printUpgradingLarge (pkg : String)
  /-- Verbose line `Skipping package (not outdated): pkg` (line 202). -/
  | logSkipping (pkg : String)
  /-- Standard output line `All categories selected, running full upgrade.` (line 209). -/
  | printFull
  /-- Verbose line `No outdated packages found for full upgrade.` (line 213). -/
  | logNoFull
deriving DecidableEq

/-- What a function leaves behind: the system state, its return value, its trace. -/
structure Ret (σ : Type) (α : Type) where
  state : σ
  value : α
  trace : List Event

/-! ## The program -/

/-- Go `logVerbose`: the line is written only in verbose mode. -/
def logVerbose (fl : Flags) (line : Event) : List Event :=
  if fl.verbose then [line] else []

/-- Go `runCommand`: announce, then (unless dry-run) execute and return the output. -/
def runCommand {σ : Type} (fl : Flags) (sys : Sys σ) (s : σ) (cmd : String)
    (args : List String) : Ret σ String :=
  let announced := Event.call ⟨cmd, args⟩ :: logVerbose fl (.logExecuting ⟨cmd, args⟩)
  if fl.dryRun then
    ⟨s, "", announced⟩
  else
    let r := sys.combinedOutput s ⟨cmd, args⟩
    ⟨r.1, r.2.1,
      announced ++ [.spawned ⟨cmd, args⟩] ++
        (if r.2.2 then [.errExecuting ⟨cmd, args⟩] else [])⟩

/-- The command line of the outdated-set probe (line 60). -/
def outdatedCmd : Cmd := ⟨"brew", ["outdated", "--quiet", "--greedy"]⟩

/-- Lines 67-73 of `getOutdatedPackages`: the probe's text turned into the map. -/
def parseOutdated (output : String) : Finset String :=
  let outdated := split (trimSpace output) '\n'
  outdated.foldl (fun outdatedMap pkg => if pkg ≠ "" then insert pkg outdatedMap else outdatedMap) ∅

/-- Go `getOutdatedPackages`: the probe is started directly, whatever `dryRun` is. -/
def getOutdatedPackages {σ : Type} (fl : Flags) (sys : Sys σ) (s : σ) : Ret σ (Finset String) :=
  let r := sys.combinedOutput s outdatedCmd
  if r.2.2 then
    ⟨r.1, ∅, [.spawned outdatedCmd, .errOutdated]⟩
  else
    let outdatedMap := parseOutdated r.2.1
    ⟨r.1, outdatedMap, .spawned outdatedCmd :: logVerbose fl (.logOutdated outdatedMap)⟩

/-- Lines 103-108 of `upgradeCategory`: the loop that collects the outdated packages. -/
def upgradablePackages (packages : List String) (outdatedPackages : Finset String) :
    List String :=
  packages.foldl
    (fun upgradable pkg => if pkg ∈ outdatedPackages then upgradable ++ [pkg] else upgradable) []

/-- Go `upgradeCategory`. -/
def upgradeCategory {σ : Type} (fl : Flags) (sys : Sys σ) (s : σ) (categoryName : String)
    (packages : List String) (outdatedPackages : Finset String) : Ret σ Unit :=
  let upgradable := upgradablePackages packages outdatedPackages
  if 0 < upgradable.length then
    let r1 := runCommand fl sys s "brew" ("upgrade" :: upgradable)
    let r2 := runCommand fl sys r1.state "brew" ["cleanup", "--prune=all"]
    ⟨r2.state, (), .printUpgrading categoryName upgradable :: (r1.trace ++ r2.trace)⟩
  else
    ⟨s, (), logVerbose fl (.logNoOutdated categoryName)⟩

/-- Lines 196-204 of `executeUpgrade`: the loop over the `large_size` packages. -/
def upgradeLargeSize {σ : Type} (fl : Flags) (sys : Sys σ) (outdatedPackages : Finset String) :
    σ → List String → Ret σ Unit
  | s, [] => ⟨s, (), []⟩
  | s, pkg :: rest =>
    if pkg ∈ outdatedPackages then
      let r1 := runCommand fl sys s "brew" ["upgrade", pkg]
      let r2 := runCommand fl sys r1.state "brew" ["cleanup", "--prune=all"]
      let r3 := upgradeLargeSize fl sys outdatedPackages r2.state rest
      ⟨r3.state, (), .printUpgradingLarge pkg :: (r1.trace ++ r2.trace ++ r3.trace)⟩
    else
      let r3 := upgradeLargeSize fl sys outdatedPackages s rest
      ⟨r3.state, (), logVerbose fl (.logSkipping pkg) ++ r3.trace⟩

/-- Lines 207-214 of `executeUpgrade`: the full upgrade when the selection has as many
entries as there are category names and something is outdated. -/
def fullUpgrade {σ : Type} (fl : Flags) (sys : Sys σ) (s : σ)
    (selectedCategories : Finset String) (outdatedPackages : Finset String) : Ret σ Unit :=
  if selectedCategories.card = categoryNames.length ∧ 0 < outdatedPackages.card then
    let q1 := runCommand fl sys s "brew" ["upgrade"]
    let q2 := runCommand fl sys q1.state "brew" ["cleanup", "--prune=all"]
    ⟨q2.state, (), .printFull :: (q1.trace ++ q2.trace)⟩
  else ⟨s, (), logVerbose fl .logNoFull⟩

/-- Lines 189-214 of `executeUpgrade`: everything after the probe. -/
def executeUpgradeFrom {σ : Type} (fl : Flags) (sys : Sys σ) (s : σ)
    (selectedCategories : Finset String) (categories : Categories)
    (outdatedPackages : Finset String) : Ret σ Unit :=
  let r1 : Ret σ Unit :=
    if highestPriority ∈ selectedCategories then
      upgradeCategory fl sys s highestPriority categories.HighestPriority outdatedPackages
    else ⟨s, (), []⟩
  let r2 : Ret σ Unit :=
    if priority ∈ selectedCategories then
      upgradeCategory fl sys r1.state priority categories.Priority outdatedPackages
    else ⟨r1.state, (), []⟩
  let r3 : Ret σ Unit :=
    if largeSize ∈ selectedCategories then
      upgradeLargeSize fl sys outdatedPackages r2.state categories.LargeSize
    else ⟨r2.state, (), []⟩
  let r4 := fullUpgrade fl sys r3.state selectedCategories outdatedPackages
  ⟨r4.state, (), r1.trace ++ r2.trace ++ r3.trace ++ r4.trace⟩

/-- Go `executeUpgrade`: probe the outdated set, then run the passes. -/
def executeUpgrade {σ : Type} (fl : Flags) (sys : Sys σ) (s : σ)
    (selectedCategories : Finset String) (categories : Categories) : Ret σ Unit :=
  let r0 := getOutdatedPackages fl sys s
  let r := executeUpgradeFrom fl sys r0.state selectedCategories categories r0.value
  ⟨r.state, (), r0.trace ++ r.trace⟩

/-- The values the `flag` package hands to `parseFlags` after `flag.Parse()`. -/
structure CommandLine where
  categoryFlag : String
  priorityFlag : Bool
  dryRunFlag : Bool
  verboseFlag : Bool
  helpFlag : Bool
  args : List String
deriving DecidableEq, Repr

/-- What `parseFlags` returns and the globals it sets. -/
structure Parsed where
  flags : Flags
  selectedCategories : Finset String
  configFilename : String
deriving DecidableEq

/-- Go `parseFlags`; `none` is the `os.Exit(0)` of the help flag. -/
def parseFlags (cl : CommandLine) : Option Parsed :=
  if cl.helpFlag then none
  else
    let selected0 : Finset String := ∅
    let selected1 :=
      if cl.priorityFlag then insert priority (insert highestPriority selected0) else selected0
    let selected2 :=
      if cl.categoryFlag ≠ "" then
        (split cl.categoryFlag ',').foldl (fun sel cat => insert (trimSpace cat) sel) selected1
      else selected1
    let selected3 :=
      if selected2.card = 0 then categoryNames.foldl (fun sel cat => insert cat sel) selected2
      else selected2
    let configFilename :=
      match cl.args with
      | [] => "packages.yaml"
      | first :: _ => first
    some ⟨⟨cl.dryRunFlag, cl.verboseFlag⟩, selected3, configFilename⟩

/-- The process environment read by `findConfigFile`. `join` is `filepath.Join`, `stat p`
tells whether `os.Stat(p)` succeeds, `binDir` is `filepath.Dir(os.Args[0])`. -/
structure Env where
  binDir : String
  home : String
  customPaths : String
  join : List String → String
  stat : String → Bool

/-- Lines 81-91 of `findConfigFile`: the candidate paths, in the order they are tried. -/
def searchPaths (env : Env) (filename : String) : List String :=
  let defaults :=
    [env.join [env.binDir, filename],
     env.join [env.home, ".brew-aware-upgrade", filename],
     filename]
  if env.customPaths ≠ "" then
    (split env.customPaths ':').foldl
      (fun paths path => [env.join [path, filename]] ++ paths) defaults
  else defaults

/-- Go `findConfigFile`: the first candidate that exists, or the not-found error. -/
def findConfigFile (env : Env) (filename : String) : Except String String :=
  match (searchPaths env filename).find? env.stat with
  | some path => .ok path
  | none => .error ("config file not found: " ++ filename)

/-- A stand-in for `filepath.Join` on elements that are already clean: the non-empty
elements joined by `/`. -/
def joinSlash (elems : List String) : String :=
  String.mk (List.intercalate ['/'] ((elems.filter (· ≠ "")).map String.data))

/-! ## Observations of a trace -/

/-- The command lines handed to `runCommand`, in order. -/
def commands (tr : List Event) : List Cmd :=
  tr.filterMap fun e => match e with
    | .call c => some c
    | _ => none

/-- The external processes really started, in order. -/
def spawnedCmds (tr : List Event) : List Cmd :=
  tr.filterMap fun e => match e with
    | .spawned c => some c
    | _ => none

/-- What a trace announces: every event except the start of a process and the error
report of a command that `runCommand` executed. -/
def announced (tr : List Event) : List Event :=
  tr.filter fun e => match e with
    | .spawned _ => false
    | .errExecuting _ => false
    | _ => true

/-- A system whose probe prints `text` and succeeds, and whose other commands print nothing. -/
def sysPrinting (text : String) : Sys Unit :=
  ⟨fun _ c => ((), if c = outdatedCmd then text else "", false)⟩

/-- A system in which every command fails. -/
def sysFailing : Sys Unit :=
  ⟨fun _ _ => ((), "", true)⟩

/-! ## Reference definitions, written from the specification -/

/-- The cleanup command that follows every upgrade. -/
def cleanupCmd : Cmd := ⟨"brew", ["cleanup", "--prune=all"]⟩

/-- The full upgrade: `brew upgrade` without a package list. -/
def fullUpgradeCmd : Cmd := ⟨"brew", ["upgrade"]⟩

/-- The packages of a declared list that are outdated, in declared order. -/
def outdatedOf (declared : List String) (outdated : Finset String) : List String :=
  declared.filter (· ∈ outdated)

/-- A standard category: one batched upgrade of the outdated packages and one cleanup,
or nothing when no declared package is outdated. -/
def batchedPass (declared : List String) (outdated : Finset String) : List Cmd :=
  if outdatedOf declared outdated = [] then []
  else [⟨"brew", "upgrade" :: outdatedOf declared outdated⟩, cleanupCmd]

/-- The large category: per outdated package, its own upgrade and its own cleanup. -/
def perPackagePass (declared : List String) (outdated : Finset String) : List Cmd :=
  (outdatedOf declared outdated).flatMap fun pkg => [⟨"brew", ["upgrade", pkg]⟩, cleanupCmd]

/-- The catch-all pass: a full upgrade and a cleanup when the selection has three
entries and something is outdated. -/
def fullPass (selected outdated : Finset String) : List Cmd :=
  if selected.card = 3 ∧ outdated.Nonempty then [fullUpgradeCmd, cleanupCmd] else []

/-- The active selection as the specification words it. -/
def activeSelection (shorthand : Bool) (explicitList : String) : Finset String :=
  let fromShorthand : Finset String := if shorthand then {highestPriority, priority} else ∅
  let withTokens :=
    if explicitList = "" then fromShorthand
    else fromShorthand ∪ ((split explicitList ',').map trimSpace).toFinset
  if withTokens = ∅ then {highestPriority, priority, largeSize} else withTokens

/-- The commands of the three category passes, in the order the code runs them. -/
def categoryPasses (selected : Finset String) (categories : Categories)
    (outdated : Finset String) : List Cmd :=
  (if highestPriority ∈ selected then batchedPass categories.HighestPriority outdated else [])
  ++ (if priority ∈ selected then batchedPass categories.Priority outdated else [])
  ++ (if largeSize ∈ selected then perPackagePass categories.LargeSize outdated else [])

/-- The non-empty lines of a text: split on newline, empty lines skipped. -/
def nonEmptyLines (text : String) : Finset String :=
  ((split text '\n').filter (· ≠ "")).toFinset

/-- The `-c` argument that lists the given tokens, separated by commas. -/
def joinTokens (tokens : List String) : String :=
  String.mk (List.intercalate [','] (tokens.map String.data))

/-! ## Lemmas on traces -/

theorem commands_append (t u : List Event) : commands (t ++ u) = commands t ++ commands u := by
  simp [commands, List.filterMap_append]

theorem commands_logVerbose (fl : Flags) (e : Event) (h : ∀ c, e ≠ .call c) :
    commands (logVerbose fl e) = [] := by
  unfold logVerbose
  split
  · cases e <;> simp [commands] at h ⊢
  · rfl

theorem commands_runCommand {σ : Type} (fl : Flags) (sys : Sys σ) (s : σ) (cmd : String)
    (args : List String) : commands (runCommand fl sys s cmd args).trace = [⟨cmd, args⟩] := by
  unfold runCommand
  cases hd : fl.dryRun <;> cases hv : fl.verbose <;>
    cases he : (sys.combinedOutput s ⟨cmd, args⟩).2.2 <;>
    simp [commands, logVerbose, hv, he]

theorem upgradable_foldl (outdated : Finset String) (packages acc : List String) :
    packages.foldl (fun upgradable pkg => if pkg ∈ outdated then upgradable ++ [pkg] else upgradable)
      acc = acc ++ outdatedOf packages outdated := by
  induction packages generalizing acc with
  | nil => simp [outdatedOf]
  | cons pkg rest ih =>
    by_cases h : pkg ∈ outdated
    · simp [List.foldl_cons, h, ih, outdatedOf, List.filter_cons]
    · simp [List.foldl_cons, h, ih, outdatedOf, List.filter_cons]

theorem upgradablePackages_eq (packages : List String) (outdated : Finset String) :
    upgradablePackages packages outdated = outdatedOf packages outdated := by
  simp [upgradablePackages, upgradable_foldl]

theorem commands_upgradeCategory {σ : Type} (fl : Flags) (sys : Sys σ) (s : σ) (name : String)
    (packages : List String) (outdated : Finset String) :
    commands (upgradeCategory fl sys s name packages outdated).trace =
      batchedPass packages outdated := by
  unfold upgradeCategory batchedPass
  simp only [upgradablePackages_eq]
  by_cases h : outdatedOf packages outdated = []
  · simp [h, commands_logVerbose]
  · have hpos : 0 < (outdatedOf packages outdated).length := List.length_pos.mpr h
    simp only [hpos, if_true, h, if_false]
    rw [show ∀ (e : Event) (t : List Event), commands (e :: t) = commands ([e] ++ t) from
      fun _ _ => rfl, commands_append, commands_append, commands_runCommand, commands_runCommand]
    simp [commands, cleanupCmd]

theorem commands_upgradeLargeSize {σ : Type} (fl : Flags) (sys : Sys σ) (outdated : Finset String)
    (packages : List String) (s : σ) :
    commands (upgradeLargeSize fl sys outdated s packages).trace =
      perPackagePass packages outdated := by
  induction packages generalizing s with
  | nil => simp [upgradeLargeSize, perPackagePass, outdatedOf, commands]
  | cons pkg rest ih =>
    unfold upgradeLargeSize
    by_cases h : pkg ∈ outdated
    · simp only [h, if_true]
      rw [show ∀ (e : Event) (t : List Event), commands (e :: t) = commands ([e] ++ t) from
        fun _ _ => rfl, commands_append, commands_append, commands_append, commands_runCommand,
        commands_runCommand, ih]
      simp [commands, perPackagePass, outdatedOf, List.filter_cons, h, cleanupCmd]
    · simp only [h, if_false]
      rw [commands_append, ih, commands_logVerbose _ _ (by intro c; simp)]
      simp [perPackagePass, outdatedOf, List.filter_cons, h]

theorem commands_fullPass {σ : Type} (fl : Flags) (sys : Sys σ) (s : σ)
    (selected outdated : Finset String) :
    commands (fullUpgrade fl sys s selected outdated).trace = fullPass selected outdated := by
  have hc : categoryNames.length = 3 := rfl
  unfold fullPass fullUpgrade
  by_cases h : selected.card = 3 ∧ outdated.Nonempty
  · have h2 : selected.card = categoryNames.length ∧ 0 < outdated.card :=
      ⟨by rw [hc]; exact h.1, Finset.card_pos.mpr h.2⟩
    rw [if_pos h2, if_pos h]
    rw [show ∀ (e : Event) (t : List Event), commands (e :: t) = commands ([e] ++ t) from
      fun _ _ => rfl, commands_append, commands_append, commands_runCommand, commands_runCommand]
    simp [commands, fullUpgradeCmd, cleanupCmd]
  · have h2 : ¬ (selected.card = categoryNames.length ∧ 0 < outdated.card) := by
      rw [hc, Finset.card_pos]; exact h
    rw [if_neg h2, if_neg h]
    exact commands_logVerbose _ _ (by intro c; simp)

/-- The command sequence of the passes that follow the probe. -/
theorem commands_executeUpgradeFrom {σ : Type} (fl : Flags) (sys : Sys σ) (s : σ)
    (selected : Finset String) (categories : Categories) (outdated : Finset String) :
    commands (executeUpgradeFrom fl sys s selected categories outdated).trace =
      (if highestPriority ∈ selected then batchedPass categories.HighestPriority outdated else [])
      ++ (if priority ∈ selected then batchedPass categories.Priority outdated else [])
      ++ (if largeSize ∈ selected then perPackagePass categories.LargeSize outdated else [])
      ++ fullPass selected outdated := by
  unfold executeUpgradeFrom
  simp only [commands_append, commands_fullPass]
  congr 1
  congr 1
  congr 1
  · split
    · exact commands_upgradeCategory _ _ _ _ _ _
    · rfl
  · split
    · exact commands_upgradeCategory _ _ _ _ _ _
    · rfl
  · split
    · exact commands_upgradeLargeSize _ _ _ _ _
    · rfl

theorem commands_getOutdatedPackages {σ : Type} (fl : Flags) (sys : Sys σ) (s : σ) :
    commands (getOutdatedPackages fl sys s).trace = [] := by
  unfold getOutdatedPackages
  simp only []
  split <;> cases hv : fl.verbose <;> simp [commands, logVerbose, hv]

theorem commands_executeUpgrade {σ : Type} (fl : Flags) (sys : Sys σ) (s : σ)
    (selected : Finset String) (categories : Categories) :
    commands (executeUpgrade fl sys s selected categories).trace =
      commands (executeUpgradeFrom fl sys (getOutdatedPackages fl sys s).state selected categories
        (getOutdatedPackages fl sys s).value).trace := by
  simp [executeUpgrade, commands_append, commands_getOutdatedPackages]

/-! ## Lemmas on the passes -/

theorem fullUpgrade_not_mem_batchedPass (declared : List String) (outdated : Finset String) :
    fullUpgradeCmd ∉ batchedPass declared outdated := by
  unfold batchedPass
  split
  · simp
  · rename_i h
    simp [fullUpgradeCmd, cleanupCmd, h]

theorem fullUpgrade_not_mem_perPackagePass (declared : List String) (outdated : Finset String) :
    fullUpgradeCmd ∉ perPackagePass declared outdated := by
  simp [perPackagePass, fullUpgradeCmd, cleanupCmd, List.mem_flatMap]

theorem fullUpgrade_not_mem_categoryPasses (selected : Finset String) (categories : Categories)
    (outdated : Finset String) : fullUpgradeCmd ∉ categoryPasses selected categories outdated := by
  unfold categoryPasses
  simp only [List.mem_append, not_or]
  refine ⟨⟨?_, ?_⟩, ?_⟩
  · split
    · exact fullUpgrade_not_mem_batchedPass _ _
    · simp
  · split
    · exact fullUpgrade_not_mem_batchedPass _ _
    · simp
  · split
    · exact fullUpgrade_not_mem_perPackagePass _ _
    · simp

theorem commands_executeUpgrade_eq {σ : Type} (fl : Flags) (sys : Sys σ) (s : σ)
    (selected : Finset String) (categories : Categories) :
    commands (executeUpgrade fl sys s selected categories).trace =
      categoryPasses selected categories (getOutdatedPackages fl sys s).value ++
        fullPass selected (getOutdatedPackages fl sys s).value := by
  rw [commands_executeUpgrade, commands_executeUpgradeFrom]
  rfl

theorem batchedPass_empty (declared : List String) : batchedPass declared ∅ = [] := by
  simp [batchedPass, outdatedOf]

theorem perPackagePass_empty (declared : List String) : perPackagePass declared ∅ = [] := by
  simp [perPackagePass, outdatedOf]

theorem getOutdatedPackages_value {σ : Type} (fl : Flags) (sys : Sys σ) (s : σ) :
    (getOutdatedPackages fl sys s).value =
      if (sys.combinedOutput s outdatedCmd).2.2 then ∅
      else parseOutdated (sys.combinedOutput s outdatedCmd).2.1 := by
  unfold getOutdatedPackages
  simp only []
  split <;> rfl

/-! ## The orchestrator: claims C3, C4, C5, C6 and C9 -/

/-- Claim C3: when the selection has exactly 3 entries and the outdated set is non-empty,
the command sequence is the category-specific commands followed by the full upgrade and
its cleanup as the last two commands, the full upgrade occurs exactly once, and this holds
whatever the category passes issued; when either condition fails the sequence contains no
argument-less `brew upgrade`. -/
theorem executeUpgrade_full_upgrade {σ : Type} (fl : Flags) (sys : Sys σ) (s : σ)
    (selected : Finset String) (categories : Categories) :
    (selected.card = 3 ∧ (getOutdatedPackages fl sys s).value.Nonempty →
      commands (executeUpgrade fl sys s selected categories).trace =
          categoryPasses selected categories (getOutdatedPackages fl sys s).value ++
            [⟨"brew", ["upgrade"]⟩, ⟨"brew", ["cleanup", "--prune=all"]⟩] ∧
        (⟨"brew", ["upgrade"]⟩ : Cmd) ∉
          categoryPasses selected categories (getOutdatedPackages fl sys s).value ∧
        (commands (executeUpgrade fl sys s selected categories).trace).count
          ⟨"brew", ["upgrade"]⟩ = 1) ∧
    (¬ (selected.card = 3 ∧ (getOutdatedPackages fl sys s).value.Nonempty) →
      (⟨"brew", ["upgrade"]⟩ : Cmd) ∉ commands (executeUpgrade fl sys s selected categories).trace) := by
  have hnot := fullUpgrade_not_mem_categoryPasses selected categories
    (getOutdatedPackages fl sys s).value
  rw [commands_executeUpgrade_eq]
  constructor
  · intro h
    refine ⟨?_, hnot, ?_⟩
    · rw [fullPass, if_pos h]; rfl
    · have hz := List.count_eq_zero_of_not_mem hnot
      rw [fullPass, if_pos h, List.count_append]
      simp only [fullUpgradeCmd] at hz
      rw [hz]
      decide
  · intro h
    rw [fullPass, if_neg h, List.append_nil]
    exact hnot

/-- Witness for C3: all three categories selected, `x` outdated and declared nowhere. -/
theorem executeUpgrade_full_upgrade_witness :
    commands (executeUpgrade ⟨false, false⟩ (sysPrinting "x\n") ()
        {highestPriority, priority, largeSize} ⟨["a"], ["b"], ["c"]⟩).trace =
      categoryPasses {highestPriority, priority, largeSize} ⟨["a"], ["b"], ["c"]⟩
          (getOutdatedPackages ⟨false, false⟩ (sysPrinting "x\n") ()).value ++
        [⟨"brew", ["upgrade"]⟩, ⟨"brew", ["cleanup", "--prune=all"]⟩] :=
  ((executeUpgrade_full_upgrade ⟨false, false⟩ (sysPrinting "x\n") ()
    {highestPriority, priority, largeSize} ⟨["a"], ["b"], ["c"]⟩).1 ⟨by decide, by decide⟩).1

/-- Claim C4: `upgradeCategory` issues, when some declared package is outdated, exactly the
two commands `brew upgrade` with the outdated declared packages in declared order and
`brew cleanup --prune=all`, and no command otherwise; declared `[a, b, c]` with outdated
`{b}` gives the batched upgrade of `[b]`. -/
theorem upgradeCategory_commands {σ : Type} (fl : Flags) (sys : Sys σ) (s : σ)
    (categoryName : String) (packages : List String) (outdated : Finset String) :
    commands (upgradeCategory fl sys s categoryName packages outdated).trace =
        (if ∃ pkg ∈ packages, pkg ∈ outdated then
          [⟨"brew", "upgrade" :: packages.filter (· ∈ outdated)⟩,
           ⟨"brew", ["cleanup", "--prune=all"]⟩]
        else []) ∧
      commands (upgradeCategory fl sys s categoryName ["a", "b", "c"] {"b"}).trace =
        [⟨"brew", ["upgrade", "b"]⟩, ⟨"brew", ["cleanup", "--prune=all"]⟩] := by
  constructor
  · rw [commands_upgradeCategory, batchedPass]
    by_cases h : ∃ pkg ∈ packages, pkg ∈ outdated
    · have hne : outdatedOf packages outdated ≠ [] := by
        obtain ⟨pkg, hp, ho⟩ := h
        intro he
        have : pkg ∈ outdatedOf packages outdated := by
          simp [outdatedOf, List.mem_filter, hp, ho]
        rw [he] at this
        simp at this
      rw [if_neg hne, if_pos h]
      rfl
    · have he : outdatedOf packages outdated = [] := by
        simp only [outdatedOf, List.filter_eq_nil_iff]
        intro pkg hp
        simp only [decide_eq_true_eq]
        exact fun ho => h ⟨pkg, hp, ho⟩
      rw [if_pos he, if_neg h]
  · rw [commands_upgradeCategory]
    decide

/-- Claim C5: with large_size selected, the large_size pass of `executeUpgrade` issues, for
each declared large_size package that is outdated, in declared order, `brew upgrade p`
for that single package followed by its own `brew cleanup --prune=all`, and nothing for the
other packages; it stands between the two standard passes and the full-upgrade pass. -/
theorem executeUpgrade_largeSize_pass {σ : Type} (fl : Flags) (sys : Sys σ) (s : σ)
    (selected : Finset String) (categories : Categories) (h : largeSize ∈ selected) :
    commands (executeUpgrade fl sys s selected categories).trace =
      ((if highestPriority ∈ selected then
          batchedPass categories.HighestPriority (getOutdatedPackages fl sys s).value else [])
        ++ (if priority ∈ selected then
          batchedPass categories.Priority (getOutdatedPackages fl sys s).value else []))
      ++ ((categories.LargeSize.filter (· ∈ (getOutdatedPackages fl sys s).value)).flatMap
          fun pkg => [⟨"brew", ["upgrade", pkg]⟩, ⟨"brew", ["cleanup", "--prune=all"]⟩])
      ++ fullPass selected (getOutdatedPackages fl sys s).value := by
  rw [commands_executeUpgrade, commands_executeUpgradeFrom, if_pos h]
  rfl

/-- Witness for C5: declared `[x, y]`, both outdated: upgrade x, cleanup, upgrade y, cleanup. -/
theorem executeUpgrade_largeSize_pass_witness :
    commands (executeUpgrade ⟨false, false⟩ (sysPrinting "x\ny\n") () {largeSize}
        ⟨[], [], ["x", "y"]⟩).trace =
      [⟨"brew", ["upgrade", "x"]⟩, ⟨"brew", ["cleanup", "--prune=all"]⟩,
       ⟨"brew", ["upgrade", "y"]⟩, ⟨"brew", ["cleanup", "--prune=all"]⟩] :=
  (executeUpgrade_largeSize_pass ⟨false, false⟩ (sysPrinting "x\ny\n") () {largeSize}
    ⟨[], [], ["x", "y"]⟩ (by decide)).trans (by decide)

/-- Claim C6: if the outdated-set probe fails, or succeeds and reports no package, then
`executeUpgrade` hands no command at all to `runCommand` (no category batch, no per-package
large_size upgrade, no full upgrade, no cleanup), and the outdated set it works with is
empty. -/
theorem executeUpgrade_nothing_outdated {σ : Type} (fl : Flags) (sys : Sys σ) (s : σ)
    (selected : Finset String) (categories : Categories)
    (h : (sys.combinedOutput s outdatedCmd).2.2 = true ∨
      parseOutdated (sys.combinedOutput s outdatedCmd).2.1 = ∅) :
    (getOutdatedPackages fl sys s).value = ∅ ∧
      commands (executeUpgrade fl sys s selected categories).trace = [] := by
  have hv : (getOutdatedPackages fl sys s).value = ∅ := by
    rw [getOutdatedPackages_value]
    rcases h with h | h
    · rw [if_pos h]
    · split
      · rfl
      · exact h
  refine ⟨hv, ?_⟩
  rw [commands_executeUpgrade_eq, hv]
  simp [categoryPasses, batchedPass_empty, perPackagePass_empty, fullPass]

/-- Witness for C6: every command fails, the probe included, and all categories are selected. -/
theorem executeUpgrade_nothing_outdated_witness :
    (getOutdatedPackages ⟨false, true⟩ sysFailing ()).value = ∅ ∧
      commands (executeUpgrade ⟨false, true⟩ sysFailing () {highestPriority, priority, largeSize}
        ⟨["a"], ["b"], ["c"]⟩).trace = [] :=
  executeUpgrade_nothing_outdated ⟨false, true⟩ sysFailing ()
    {highestPriority, priority, largeSize} ⟨["a"], ["b"], ["c"]⟩ (Or.inl rfl)

/-! ## Dry-run: claim C8 -/

theorem announced_append (t u : List Event) : announced (t ++ u) = announced t ++ announced u := by
  simp [announced, List.filter_append]

theorem spawnedCmds_append (t u : List Event) :
    spawnedCmds (t ++ u) = spawnedCmds t ++ spawnedCmds u := by
  simp [spawnedCmds, List.filterMap_append]

theorem commands_announced (tr : List Event) : commands (announced tr) = commands tr := by
  induction tr with
  | nil => rfl
  | cons e rest ih =>
    cases e <;> simp_all [commands, announced, List.filter_cons, List.filterMap_cons]

theorem logVerbose_verbose (d d' v : Bool) (e : Event) :
    logVerbose ⟨d, v⟩ e = logVerbose ⟨d', v⟩ e := rfl

theorem announced_runCommand {σ : Type} (fl : Flags) (sys : Sys σ) (s : σ) (cmd : String)
    (args : List String) :
    announced (runCommand fl sys s cmd args).trace =
      .call ⟨cmd, args⟩ :: logVerbose fl (.logExecuting ⟨cmd, args⟩) := by
  unfold runCommand
  cases hd : fl.dryRun <;> cases hv : fl.verbose <;>
    cases he : (sys.combinedOutput s ⟨cmd, args⟩).2.2 <;>
    simp [announced, logVerbose, hv, he]

theorem announced_runCommand_dry {σ τ : Type} (d d' v : Bool) (sys : Sys σ) (sys' : Sys τ)
    (s : σ) (s' : τ) (cmd : String) (args : List String) :
    announced (runCommand ⟨d, v⟩ sys s cmd args).trace =
      announced (runCommand ⟨d', v⟩ sys' s' cmd args).trace := by
  rw [announced_runCommand, announced_runCommand]
  rfl

theorem announced_cons (e : Event) (t : List Event) :
    announced (e :: t) = announced [e] ++ announced t :=
  announced_append [e] t

theorem announced_upgradeCategory {σ τ : Type} (d d' v : Bool) (sys : Sys σ) (sys' : Sys τ)
    (s : σ) (s' : τ) (name : String) (packages : List String) (outdated : Finset String) :
    announced (upgradeCategory ⟨d, v⟩ sys s name packages outdated).trace =
      announced (upgradeCategory ⟨d', v⟩ sys' s' name packages outdated).trace := by
  unfold upgradeCategory
  simp only []
  split
  · simp only [announced_cons _ (_ ++ _), announced_append]
    rw [announced_runCommand_dry d d' v sys sys' s s',
      announced_runCommand_dry d d' v sys sys' _
        (runCommand ⟨d', v⟩ sys' s' "brew"
          ("upgrade" :: upgradablePackages packages outdated)).state]
  · rfl

theorem announced_upgradeLargeSize {σ τ : Type} (d d' v : Bool) (sys : Sys σ) (sys' : Sys τ)
    (outdated : Finset String) (packages : List String) (s : σ) (s' : τ) :
    announced (upgradeLargeSize ⟨d, v⟩ sys outdated s packages).trace =
      announced (upgradeLargeSize ⟨d', v⟩ sys' outdated s' packages).trace := by
  induction packages generalizing s s' with
  | nil => rfl
  | cons pkg rest ih =>
    unfold upgradeLargeSize
    split
    · simp only [announced_cons _ (_ ++ _), announced_append]
      rw [announced_runCommand_dry d d' v sys sys' s s',
        announced_runCommand_dry d d' v sys sys' _
          (runCommand ⟨d', v⟩ sys' s' "brew" ["upgrade", pkg]).state,
        ih _ (runCommand ⟨d', v⟩ sys'
          (runCommand ⟨d', v⟩ sys' s' "brew" ["upgrade", pkg]).state "brew"
          ["cleanup", "--prune=all"]).state]
    · simp only [announced_append]
      rw [ih s s']
      rfl

theorem announced_fullUpgrade {σ τ : Type} (d d' v : Bool) (sys : Sys σ) (sys' : Sys τ)
    (s : σ) (s' : τ) (selected outdated : Finset String) :
    announced (fullUpgrade ⟨d, v⟩ sys s selected outdated).trace =
      announced (fullUpgrade ⟨d', v⟩ sys' s' selected outdated).trace := by
  unfold fullUpgrade
  split
  · simp only [announced_cons _ (_ ++ _), announced_append]
    rw [announced_runCommand_dry d d' v sys sys' s s',
      announced_runCommand_dry d d' v sys sys' _
        (runCommand ⟨d', v⟩ sys' s' "brew" ["upgrade"]).state]
  · rfl

theorem announced_executeUpgradeFrom {σ τ : Type} (d d' v : Bool) (sys : Sys σ) (sys' : Sys τ)
    (s : σ) (s' : τ) (selected : Finset String) (categories : Categories)
    (outdated : Finset String) :
    announced (executeUpgradeFrom ⟨d, v⟩ sys s selected categories outdated).trace =
      announced (executeUpgradeFrom ⟨d', v⟩ sys' s' selected categories outdated).trace := by
  unfold executeUpgradeFrom
  simp only [announced_append]
  congr 1
  · congr 1
    · congr 1
      · split
        · exact announced_upgradeCategory d d' v sys sys' _ _ _ _ _
        · rfl
      · split
        · exact announced_upgradeCategory d d' v sys sys' _ _ _ _ _
        · rfl
    · split
      · exact announced_upgradeLargeSize d d' v sys sys' _ _ _ _
      · rfl
  · exact announced_fullUpgrade d d' v sys sys' _ _ _ _

theorem runCommand_dry {σ : Type} (v : Bool) (sys : Sys σ) (s : σ) (cmd : String)
    (args : List String) :
    (runCommand ⟨true, v⟩ sys s cmd args).state = s ∧
      (runCommand ⟨true, v⟩ sys s cmd args).value = "" ∧
      spawnedCmds (runCommand ⟨true, v⟩ sys s cmd args).trace = [] := by
  cases v <;> simp [runCommand, logVerbose, spawnedCmds]

theorem spawnedCmds_logVerbose (fl : Flags) (e : Event) (h : ∀ c, e ≠ .spawned c) :
    spawnedCmds (logVerbose fl e) = [] := by
  unfold logVerbose
  split
  · cases e <;> simp [spawnedCmds] at h ⊢
  · rfl

theorem upgradeCategory_dry {σ : Type} (v : Bool) (sys : Sys σ) (s : σ) (name : String)
    (packages : List String) (outdated : Finset String) :
    (upgradeCategory ⟨true, v⟩ sys s name packages outdated).state = s ∧
      spawnedCmds (upgradeCategory ⟨true, v⟩ sys s name packages outdated).trace = [] := by
  unfold upgradeCategory
  simp only []
  split
  · refine ⟨by simp [(runCommand_dry v sys _ _ _).1], ?_⟩
    rw [show ∀ (e : Event) (t : List Event), spawnedCmds (e :: t) = spawnedCmds ([e] ++ t) from
      fun _ _ => rfl, spawnedCmds_append, spawnedCmds_append, (runCommand_dry v sys _ _ _).2.2,
      (runCommand_dry v sys _ _ _).2.2]
    rfl
  · exact ⟨rfl, spawnedCmds_logVerbose _ _ (by intro c; simp)⟩

theorem upgradeLargeSize_dry {σ : Type} (v : Bool) (sys : Sys σ) (outdated : Finset String)
    (packages : List String) (s : σ) :
    (upgradeLargeSize ⟨true, v⟩ sys outdated s packages).state = s ∧
      spawnedCmds (upgradeLargeSize ⟨true, v⟩ sys outdated s packages).trace = [] := by
  induction packages generalizing s with
  | nil => exact ⟨rfl, rfl⟩
  | cons pkg rest ih =>
    unfold upgradeLargeSize
    split
    · refine ⟨by simp [(ih _).1, (runCommand_dry v sys _ _ _).1], ?_⟩
      rw [show ∀ (e : Event) (t : List Event), spawnedCmds (e :: t) = spawnedCmds ([e] ++ t) from
        fun _ _ => rfl, spawnedCmds_append, spawnedCmds_append, spawnedCmds_append,
        (runCommand_dry v sys _ _ _).2.2, (runCommand_dry v sys _ _ _).2.2, (ih _).2]
      rfl
    · refine ⟨(ih s).1, ?_⟩
      rw [spawnedCmds_append, (ih s).2, spawnedCmds_logVerbose _ _ (by intro c; simp)]
      rfl

theorem fullUpgrade_dry {σ : Type} (v : Bool) (sys : Sys σ) (s : σ)
    (selected outdated : Finset String) :
    (fullUpgrade ⟨true, v⟩ sys s selected outdated).state = s ∧
      spawnedCmds (fullUpgrade ⟨true, v⟩ sys s selected outdated).trace = [] := by
  unfold fullUpgrade
  split
  · refine ⟨by simp [(runCommand_dry v sys _ _ _).1], ?_⟩
    rw [show ∀ (e : Event) (u : List Event), spawnedCmds (e :: u) = spawnedCmds ([e] ++ u) from
      fun _ _ => rfl, spawnedCmds_append, spawnedCmds_append, (runCommand_dry v sys _ _ _).2.2,
      (runCommand_dry v sys _ _ _).2.2]
    rfl
  · exact ⟨rfl, spawnedCmds_logVerbose _ _ (by intro c; simp)⟩

theorem ite_dry {σ : Type} (c : Prop) [Decidable c] (r : Ret σ Unit) (t : σ)
    (h : r.state = t ∧ spawnedCmds r.trace = []) :
    (if c then r else ⟨t, (), []⟩).state = t ∧
      spawnedCmds (if c then r else ⟨t, (), []⟩).trace = [] := by
  split
  · exact h
  · exact ⟨rfl, rfl⟩

theorem executeUpgradeFrom_dry {σ : Type} (v : Bool) (sys : Sys σ) (s : σ)
    (selected : Finset String) (categories : Categories) (outdated : Finset String) :
    (executeUpgradeFrom ⟨true, v⟩ sys s selected categories outdated).state = s ∧
      spawnedCmds (executeUpgradeFrom ⟨true, v⟩ sys s selected categories outdated).trace = [] := by
  unfold executeUpgradeFrom
  simp only []
  obtain ⟨e1s, e1t⟩ := ite_dry (highestPriority ∈ selected) _ s
    (upgradeCategory_dry v sys s highestPriority categories.HighestPriority outdated)
  rw [e1s]
  obtain ⟨e2s, e2t⟩ := ite_dry (priority ∈ selected) _ s
    (upgradeCategory_dry v sys s priority categories.Priority outdated)
  rw [e2s]
  obtain ⟨e3s, e3t⟩ := ite_dry (largeSize ∈ selected) _ s
    (upgradeLargeSize_dry v sys outdated categories.LargeSize s)
  rw [e3s]
  obtain ⟨e4s, e4t⟩ := fullUpgrade_dry v sys s selected outdated
  rw [spawnedCmds_append, spawnedCmds_append, spawnedCmds_append, e1t, e2t, e3t, e4s, e4t]
  exact ⟨rfl, rfl⟩

theorem getOutdatedPackages_dryRun {σ : Type} (d d' v : Bool) (sys : Sys σ) (s : σ) :
    getOutdatedPackages ⟨d, v⟩ sys s = getOutdatedPackages ⟨d', v⟩ sys s := rfl

theorem getOutdatedPackages_state {σ : Type} (fl : Flags) (sys : Sys σ) (s : σ) :
    (getOutdatedPackages fl sys s).state = (sys.combinedOutput s outdatedCmd).1 := by
  unfold getOutdatedPackages
  simp only []
  split <;> rfl

theorem spawnedCmds_getOutdatedPackages {σ : Type} (fl : Flags) (sys : Sys σ) (s : σ) :
    spawnedCmds (getOutdatedPackages fl sys s).trace = [outdatedCmd] := by
  unfold getOutdatedPackages
  simp only []
  split <;> cases hv : fl.verbose <;> simp [spawnedCmds, logVerbose, hv]

/-- Claim C8, as stated, fails: a dry run still starts an external process, the probe
`brew outdated --quiet --greedy`, and captures its non-empty output. -/
theorem dryRun_still_runs_probe :
    ¬ (spawnedCmds (executeUpgrade ⟨true, false⟩ (sysPrinting "x\n") () {highestPriority}
        ⟨["x"], [], []⟩).trace = []) := by
  decide

/-- Claim C8, amended: in dry-run mode the only external process started by `executeUpgrade`
is the probe `brew outdated --quiet --greedy` and the system is left in the state the probe
produced; every command handed to `runCommand` is not executed and its captured output is
the empty string; and what the run announces (every event but process starts and the
error reports of executed commands), hence also the sequence of commands handed to
`runCommand`, is identical to that of a non-dry-run run from the same state. -/
theorem executeUpgrade_dryRun {σ : Type} (v : Bool) (sys : Sys σ) (s : σ)
    (selected : Finset String) (categories : Categories) :
    spawnedCmds (executeUpgrade ⟨true, v⟩ sys s selected categories).trace = [outdatedCmd] ∧
    (executeUpgrade ⟨true, v⟩ sys s selected categories).state =
      (sys.combinedOutput s outdatedCmd).1 ∧
    (∀ (t : σ) (cmd : String) (args : List String),
      (runCommand ⟨true, v⟩ sys t cmd args).value = "" ∧
      (runCommand ⟨true, v⟩ sys t cmd args).state = t ∧
      spawnedCmds (runCommand ⟨true, v⟩ sys t cmd args).trace = []) ∧
    announced (executeUpgrade ⟨true, v⟩ sys s selected categories).trace =
      announced (executeUpgrade ⟨false, v⟩ sys s selected categories).trace ∧
    commands (executeUpgrade ⟨true, v⟩ sys s selected categories).trace =
      commands (executeUpgrade ⟨false, v⟩ sys s selected categories).trace := by
  have hann : announced (executeUpgrade ⟨true, v⟩ sys s selected categories).trace =
      announced (executeUpgrade ⟨false, v⟩ sys s selected categories).trace := by
    unfold executeUpgrade
    simp only [announced_append]
    rw [getOutdatedPackages_dryRun true false v sys s,
      announced_executeUpgradeFrom true false v sys sys _
        (getOutdatedPackages ⟨false, v⟩ sys s).state]
  refine ⟨?_, ?_, ?_, hann, ?_⟩
  · unfold executeUpgrade
    simp only []
    rw [spawnedCmds_append, spawnedCmds_getOutdatedPackages, (executeUpgradeFrom_dry v sys _ _ _ _).2]
    rfl
  · unfold executeUpgrade
    simp only []
    rw [(executeUpgradeFrom_dry v sys _ _ _ _).1, getOutdatedPackages_state]
  · intro t cmd args
    obtain ⟨h1, h2, h3⟩ := runCommand_dry v sys t cmd args
    exact ⟨h2, h1, h3⟩
  · rw [← commands_announced, hann, commands_announced]

/-! ## Unknown category names: claim C2 -/

/-- An unknown name changes none of the three category passes. -/
theorem categoryPasses_insert_unknown (selected : Finset String) (categories : Categories)
    (outdated : Finset String) (u : String) (h1 : u ≠ highestPriority) (h2 : u ≠ priority)
    (h3 : u ≠ largeSize) :
    categoryPasses (insert u selected) categories outdated =
      categoryPasses selected categories outdated := by
  unfold categoryPasses
  simp only [Finset.mem_insert, h1.symm, h2.symm, h3.symm, false_or]

/-- Claim C2 at its failing inputs: with `x` outdated and declared only in large_size, the
selection {highest_priority, priority} issues no command, and the same selection with the
unknown name `typo` added issues the full upgrade and its cleanup; and the three known
names issue the full upgrade, which disappears when `typo` is added to them. -/
theorem unknown_name_changes_full_upgrade :
    commands (executeUpgrade ⟨false, false⟩ (sysPrinting "x\n") ()
        {highestPriority, priority} ⟨["a"], ["b"], ["x"]⟩).trace = [] ∧
    commands (executeUpgrade ⟨false, false⟩ (sysPrinting "x\n") ()
        (insert "typo" {highestPriority, priority}) ⟨["a"], ["b"], ["x"]⟩).trace =
      [⟨"brew", ["upgrade"]⟩, ⟨"brew", ["cleanup", "--prune=all"]⟩] ∧
    commands (executeUpgrade ⟨false, false⟩ (sysPrinting "x\n") ()
        {highestPriority, priority, largeSize} ⟨["a"], ["b"], []⟩).trace =
      [⟨"brew", ["upgrade"]⟩, ⟨"brew", ["cleanup", "--prune=all"]⟩] ∧
    commands (executeUpgrade ⟨false, false⟩ (sysPrinting "x\n") ()
        (insert "typo" {highestPriority, priority, largeSize}) ⟨["a"], ["b"], []⟩).trace = [] := by
  decide

/-! ## The prober: claim C10 -/

theorem foldl_insert_nonempty (lines : List String) (acc : Finset String) :
    lines.foldl (fun outdatedMap pkg => if pkg ≠ "" then insert pkg outdatedMap else outdatedMap)
      acc = acc ∪ (lines.filter (· ≠ "")).toFinset := by
  induction lines generalizing acc with
  | nil => simp
  | cons l rest ih =>
    by_cases h : l = ""
    · rw [List.foldl_cons, ih]
      simp [h, List.filter_cons]
    · rw [List.foldl_cons, ih]
      ext x
      simp [h, List.filter_cons]

theorem parseOutdated_eq (output : String) :
    parseOutdated output = nonEmptyLines (trimSpace output) := by
  unfold parseOutdated nonEmptyLines
  simp only [foldl_insert_nonempty, Finset.empty_union]

/-- Claim C10, as stated, fails: for the probe output ` a` (a leading space) the returned
set contains `a`, which is not a line of that text. -/
theorem getOutdatedPackages_not_lines :
    ¬ ((getOutdatedPackages ⟨false, false⟩ (sysPrinting " a") ()).value = nonEmptyLines " a") := by
  intro h
  have hmem : "a" ∈ (getOutdatedPackages ⟨false, false⟩ (sysPrinting " a") ()).value := by decide
  have hnot : "a" ∉ nonEmptyLines " a" := by decide
  exact hnot (h ▸ hmem)

/-- Claim C10, amended: for every output text of a successful probe, the set returned by
`getOutdatedPackages` is exactly the set of non-empty lines of the text obtained from the
output by removing its leading and trailing white space. -/
theorem getOutdatedPackages_lines {σ : Type} (fl : Flags) (sys : Sys σ) (s : σ)
    (h : (sys.combinedOutput s outdatedCmd).2.2 = false) :
    (getOutdatedPackages fl sys s).value =
      nonEmptyLines (trimSpace (sys.combinedOutput s outdatedCmd).2.1) := by
  rw [getOutdatedPackages_value, h, parseOutdated_eq]
  rfl

/-- Witness for the amended C10: the probe prints ` a`, a newline, `b ` and a newline. -/
theorem getOutdatedPackages_lines_witness :
    (getOutdatedPackages ⟨false, false⟩ (sysPrinting " a\nb \n") ()).value =
      nonEmptyLines (trimSpace " a\nb \n") :=
  getOutdatedPackages_lines ⟨false, false⟩ (sysPrinting " a\nb \n") () rfl

/-! ## The selector: claim C7 -/

theorem foldl_insert_map (f : String → String) (tokens : List String) (acc : Finset String) :
    tokens.foldl (fun sel cat => insert (f cat) sel) acc = acc ∪ (tokens.map f).toFinset := by
  induction tokens generalizing acc with
  | nil => simp
  | cons t rest ih =>
    rw [List.foldl_cons, ih]
    ext x
    simp

theorem default_all (sel : Finset String) :
    (if sel = ∅ then insert largeSize (insert priority (insert highestPriority sel)) else sel) =
      if sel = ∅ then {highestPriority, priority, largeSize} else sel := by
  by_cases h : sel = ∅
  · rw [if_pos h, if_pos h, h]
    ext x
    simp
    tauto
  · rw [if_neg h, if_neg h]

theorem parseFlags_selected (cl : CommandLine) (h : cl.helpFlag = false) :
    (parseFlags cl).map (·.selectedCategories) =
      some (activeSelection cl.priorityFlag cl.categoryFlag) := by
  unfold parseFlags activeSelection
  simp only [h, Bool.false_eq_true, if_false, Option.map_some', Option.some.injEq,
    Finset.card_eq_zero, foldl_insert_map, categoryNames, List.foldl_cons, List.foldl_nil]
  have hbase : (if cl.priorityFlag = true then
      insert priority (insert highestPriority (∅ : Finset String)) else ∅) =
      (if cl.priorityFlag = true then {highestPriority, priority} else ∅) := by
    split
    · ext x; simp; tauto
    · rfl
  rw [hbase]
  have hsel : (if cl.categoryFlag ≠ "" then
        (if cl.priorityFlag = true then ({highestPriority, priority} : Finset String) else ∅) ∪
          (List.map trimSpace (split cl.categoryFlag ',')).toFinset
      else if cl.priorityFlag = true then {highestPriority, priority} else ∅) =
      (if cl.categoryFlag = "" then
        (if cl.priorityFlag = true then ({highestPriority, priority} : Finset String) else ∅)
      else (if cl.priorityFlag = true then ({highestPriority, priority} : Finset String) else ∅) ∪
          (List.map trimSpace (split cl.categoryFlag ',')).toFinset) := by
    by_cases hc : cl.categoryFlag = ""
    · simp [hc]
    · simp [hc]
  rw [hsel]
  exact default_all _

/-- Claim C7: the active selection computed by `parseFlags` equals the reference
definition for every `-P` value and every `-c` string: start from {highest_priority,
priority} if `-P` is set and from the empty set otherwise, add every comma-separated token
of a non-empty `-c` string after trimming white space, and take the three known categories
if the result is empty; `-P` without `-c` gives exactly {highest_priority, priority}, and
neither flag gives exactly the three known categories. -/
theorem parseFlags_activeSelection (c : String) (P D v : Bool) (args : List String) :
    (parseFlags ⟨c, P, D, v, false, args⟩).map (·.selectedCategories) =
        some (activeSelection P c) ∧
      (parseFlags ⟨"", true, D, v, false, args⟩).map (·.selectedCategories) =
        some {highestPriority, priority} ∧
      (parseFlags ⟨"", false, D, v, false, args⟩).map (·.selectedCategories) =
        some {highestPriority, priority, largeSize} := by
  refine ⟨parseFlags_selected _ rfl, ?_, ?_⟩
  · rw [parseFlags_selected _ rfl]
    have : activeSelection true "" = {highestPriority, priority} := by
      unfold activeSelection
      simp only [if_true]
      rw [if_neg]
      decide
    simp only [this]
  · rw [parseFlags_selected _ rfl]
    rfl

/-! ## The config lookup: claim C1 -/

theorem splitChars_no_sep (sep : Char) (l : List Char) (h : sep ∉ l) :
    splitChars sep l = [l] := by
  induction l with
  | nil => rfl
  | cons c cs ih =>
    have hc : c ≠ sep := fun e => h (e ▸ List.mem_cons_self _ _)
    have hcs : sep ∉ cs := fun m => h (List.mem_cons_of_mem _ m)
    simp [splitChars, hc, ih hcs]

theorem splitChars_append_sep (sep : Char) (l rest : List Char) (h : sep ∉ l) :
    splitChars sep (l ++ sep :: rest) = l :: splitChars sep rest := by
  induction l with
  | nil => simp [splitChars]
  | cons c cs ih =>
    have hc : c ≠ sep := fun e => h (e ▸ List.mem_cons_self _ _)
    have hcs : sep ∉ cs := fun m => h (List.mem_cons_of_mem _ m)
    simp [splitChars, hc, ih hcs]

/-- The search order for a custom path list `A:B`: the later directory `B` is tried first. -/
theorem searchPaths_two_custom (env : Env) (A B filename : String) (hA : ':' ∉ A.data)
    (hB : ':' ∉ B.data) (h : env.customPaths = String.mk (A.data ++ ':' :: B.data)) :
    searchPaths env filename =
      [env.join [B, filename], env.join [A, filename], env.join [env.binDir, filename],
       env.join [env.home, ".brew-aware-upgrade", filename], filename] := by
  have hne : env.customPaths ≠ "" := by
    rw [h]
    intro e
    have := congrArg String.data e
    simp at this
  unfold searchPaths
  simp only []
  rw [if_pos hne]
  simp [h, split, splitChars_append_sep _ _ _ hA, splitChars_no_sep _ _ hB]

/-- Claim C1 at its failing input: with BREWUP_CONFIG_PATHS = `a:b` the candidates are
tried in the order b/packages.yaml, a/packages.yaml and then the three default locations,
so when every candidate exists `findConfigFile` returns b/packages.yaml, not
a/packages.yaml. -/
theorem findConfigFile_custom_paths_reversed :
    searchPaths ⟨"/opt/bin", "/home/u", "a:b", joinSlash, fun _ => true⟩ "packages.yaml" =
      ["b/packages.yaml", "a/packages.yaml", "/opt/bin/packages.yaml",
       "/home/u/.brew-aware-upgrade/packages.yaml", "packages.yaml"] ∧
    findConfigFile ⟨"/opt/bin", "/home/u", "a:b", joinSlash, fun _ => true⟩ "packages.yaml" =
      .ok "b/packages.yaml" := by
  constructor
  · decide
  · rfl

/-! ## The order of the names in `-c` -/

theorem splitChars_intercalate (sep : Char) (tokens : List (List Char)) (hne : tokens ≠ [])
    (h : ∀ t ∈ tokens, sep ∉ t) : splitChars sep (List.intercalate [sep] tokens) = tokens := by
  induction tokens with
  | nil => exact absurd rfl hne
  | cons t rest ih =>
    cases rest with
    | nil =>
      simpa [List.intercalate] using splitChars_no_sep sep t (h t (List.mem_cons_self _ _))
    | cons t2 rest2 =>
      have ht : sep ∉ t := h t (List.mem_cons_self _ _)
      have hrest : ∀ u ∈ t2 :: rest2, sep ∉ u := fun u hu => h u (List.mem_cons_of_mem _ hu)
      have ih2 := ih (List.cons_ne_nil _ _) hrest
      have e : List.intercalate [sep] (t :: t2 :: rest2) =
          t ++ sep :: List.intercalate [sep] (t2 :: rest2) := by
        simp [List.intercalate]
      rw [e, splitChars_append_sep _ _ _ ht, ih2]

theorem split_joinTokens (tokens : List String) (hne : tokens ≠ [])
    (h : ∀ t ∈ tokens, ',' ∉ t.data) : split (joinTokens tokens) ',' = tokens := by
  unfold split joinTokens
  rw [splitChars_intercalate]
  · rw [List.map_map]
    exact (List.map_congr_left (fun t _ => rfl)).trans (List.map_id _)
  · simpa using hne
  · intro t ht
    obtain ⟨u, hu, rfl⟩ := List.mem_map.mp ht
    exact h u hu

theorem joinTokens_empty_iff (tokens : List String) (hne : tokens ≠ [])
    (h : ∀ t ∈ tokens, ',' ∉ t.data) : joinTokens tokens = "" ↔ tokens = [""] := by
  constructor
  · intro he
    have hs := split_joinTokens tokens hne h
    rw [he] at hs
    exact hs.symm
  · intro e
    rw [e]
    rfl

theorem explicit_tokens_perm (tokens tokens2 : List String) (hp : tokens.Perm tokens2)
    (h : ∀ t ∈ tokens, ',' ∉ t.data) (base : Finset String) :
    (if joinTokens tokens ≠ "" then
        (split (joinTokens tokens) ',').foldl (fun sel cat => insert (trimSpace cat) sel) base
      else base) =
    (if joinTokens tokens2 ≠ "" then
        (split (joinTokens tokens2) ',').foldl (fun sel cat => insert (trimSpace cat) sel) base
      else base) := by
  by_cases hne : tokens = []
  · subst hne
    rw [List.nil_perm.mp hp]
  · have hne2 : tokens2 ≠ [] := fun e => hne (List.perm_nil.mp (e ▸ hp))
    have h2 : ∀ t ∈ tokens2, ',' ∉ t.data := fun t ht => h t (hp.mem_iff.mpr ht)
    have hiff : joinTokens tokens = "" ↔ joinTokens tokens2 = "" := by
      rw [joinTokens_empty_iff _ hne h, joinTokens_empty_iff _ hne2 h2]
      constructor
      · intro e
        exact List.perm_singleton.mp (e ▸ hp.symm)
      · intro e
        exact List.perm_singleton.mp (e ▸ hp)
    by_cases he : joinTokens tokens = ""
    · rw [if_neg (not_not.mpr he), if_neg (not_not.mpr (hiff.mp he))]
    · rw [if_pos he, if_pos (fun e => he (hiff.mpr e)), split_joinTokens _ hne h,
        split_joinTokens _ hne2 h2, foldl_insert_map, foldl_insert_map,
        List.toFinset_eq_of_perm _ _ (hp.map trimSpace)]

/-- The selection does not depend on the order in which names are listed in `-c`. -/
theorem parseFlags_perm (tokens tokens2 : List String) (hp : tokens.Perm tokens2)
    (h : ∀ t ∈ tokens, ',' ∉ t.data) (P D v help : Bool) (args : List String) :
    parseFlags ⟨joinTokens tokens, P, D, v, help, args⟩ =
      parseFlags ⟨joinTokens tokens2, P, D, v, help, args⟩ := by
  unfold parseFlags
  simp only [explicit_tokens_perm tokens tokens2 hp h]

/-! ## The order of the passes: claim C9 -/

/-- Claim C9: the command sequence issued by `executeUpgrade` is the concatenation, in this
fixed order, of the highest_priority pass, the priority pass, the large_size pass and the
full-upgrade pass, each pass empty when its category is not selected or its condition
fails, whatever the declared lists contain; and the selection, hence the sequence, does
not depend on the order in which comma-free names are listed in `-c`. -/
theorem executeUpgrade_pass_order {σ : Type} (fl : Flags) (sys : Sys σ) (s : σ)
    (selected : Finset String) (categories : Categories) :
    commands (executeUpgrade fl sys s selected categories).trace =
      (if highestPriority ∈ selected then
          batchedPass categories.HighestPriority (getOutdatedPackages fl sys s).value else [])
      ++ (if priority ∈ selected then
          batchedPass categories.Priority (getOutdatedPackages fl sys s).value else [])
      ++ (if largeSize ∈ selected then
          perPackagePass categories.LargeSize (getOutdatedPackages fl sys s).value else [])
      ++ fullPass selected (getOutdatedPackages fl sys s).value ∧
    ∀ (tokens tokens2 : List String), tokens.Perm tokens2 → (∀ t ∈ tokens, ',' ∉ t.data) →
      ∀ (P D v help : Bool) (args : List String),
        parseFlags ⟨joinTokens tokens, P, D, v, help, args⟩ =
          parseFlags ⟨joinTokens tokens2, P, D, v, help, args⟩ := by
  constructor
  · rw [commands_executeUpgrade, commands_executeUpgradeFrom]
  · intro tokens tokens2 hp h P D v help args
    exact parseFlags_perm tokens tokens2 hp h P D v help args

/-- Witness for C9: `-c large_size,priority` and `-c priority,large_size` select the same. -/
theorem executeUpgrade_pass_order_witness :
    parseFlags ⟨joinTokens ["large_size", "priority"], false, false, false, false, []⟩ =
      parseFlags ⟨joinTokens ["priority", "large_size"], false, false, false, false, []⟩ :=
  (executeUpgrade_pass_order ⟨false, false⟩ (sysPrinting "x\n") () {largeSize, priority}
    ⟨[], ["x"], ["x"]⟩).2 ["large_size", "priority"] ["priority", "large_size"]
    (List.Perm.swap _ _ _) (by decide) false false false false []

end BrewAwareUpgrade
